import Mathlib

/-!
Verification of the `indicator` streaming technical-analysis library.

Each Rust indicator is embedded as an explicit state machine: the mutable
fields of the Rust struct become a Lean structure, `next`/`current`/`reset`
become pure functions on that structure, and immutable construction
parameters (periods, multipliers) are curried arguments.  `f64` arithmetic
is modelled by exact rationals (`ℚ`); the only transcendental operation in
the library, `f64::sqrt` inside `StandardDeviation::current`, is abstracted
as an explicit function argument `sqrtQ : ℚ → ℚ`.
-/

namespace Indicator

/-! ## Error model (src/error.rs) -/

/-- `Range<T>` from src/error.rs. -/
inductive ParamRange (T : Type) where
  | lowerBounded (min : T)
  | upperBounded (max : T)
  | bothBounded (min max : T)
deriving DecidableEq, Repr

/-- `Parameter<T>` from src/error.rs: a parameter name with its offending value. -/
structure Parameter (T : Type) where
  name : String
  value : T
deriving DecidableEq, Repr

/-- `InvalidRangeError<T>` from src/error.rs. -/
structure InvalidRangeError (T : Type) where
  param : Parameter T
  range : ParamRange T
deriving DecidableEq, Repr

/-- `InvalidBinaryRelationError<T>` from src/error.rs. -/
structure InvalidBinaryRelationError (T : Type) where
  operator : String
  lhs : Parameter T
  rhs : Parameter T
deriving DecidableEq, Repr

/-- `Error` from src/error.rs. -/
inductive Error where
  | invalidUintRange : InvalidRangeError ℕ → Error
  | invalidFloatRange : InvalidRangeError ℚ → Error
  | invalidRelation : InvalidBinaryRelationError ℕ → Error
deriving DecidableEq, Repr

/-! ## The indicator contract as a state machine

A Rust value implementing `Indicator + Next<I> + Current + Reset`
(src/lib.rs) is modelled as a `Machine`: its construction-time state, its
`next` step (returning the successor state and the produced output), its
`current` peek, and its `reset`. -/

structure Machine (I O St : Type) where
  init : St
  next : St → I → St × O
  current : St → Option O
  reset : St → St

/-- Drive a machine over a list of inputs, returning the final state and
the list of outputs, one per input (the iterator adapter of
src/indicator_iterator.rs). -/
def Machine.run {I O St : Type} (m : Machine I O St) : St → List I → St × List O
  | s, [] => (s, [])
  | s, x :: xs =>
      let step := m.next s x
      let rest := Machine.run m step.1 xs
      (rest.1, step.2 :: rest.2)

/-- The outputs of a run. -/
def Machine.outputs {I O St : Type} (m : Machine I O St) (s : St) (xs : List I) : List O :=
  (m.run s xs).2

/-- `reset` restores the construction-time state, from any state. -/
def ResetRestoresInit {I O St : Type} (m : Machine I O St) : Prop :=
  ∀ s : St, m.reset s = m.init

/-- Reset equivalence: running over `S` from the initial state, resetting,
and running over `S` again yields the same output sequence both times. -/
def ResetEquiv {I O St : Type} (m : Machine I O St) : Prop :=
  ∀ S : List I, (m.run (m.reset (m.run m.init S).1) S).2 = (m.run m.init S).2

theorem Machine.run_cons {I O St : Type} (m : Machine I O St) (s : St) (x : I) (xs : List I) :
    m.run s (x :: xs) =
      ((m.run (m.next s x).1 xs).1, (m.next s x).2 :: (m.run (m.next s x).1 xs).2) := rfl

theorem resetEquiv_of_resetRestoresInit {I O St : Type} (m : Machine I O St)
    (h : ResetRestoresInit m) : ResetEquiv m := by
  intro S
  rw [h]

/-! ## Operators (src/operators/) -/

/-- `Identity` (src/operators/identity.rs): advances to exactly its input,
remembering it for `current`; `reset` clears the memory. -/
def Identity.machine (T : Type) : Machine T T (Option T) where
  init := none
  next := fun _ input => (some input, input)
  current := fun s => s
  reset := fun _ => none

/-- `Constant` (src/operators/constant.rs): ignores the input and always
produces the fixed value; `reset` is a no-op.  The stored value is never
mutated, so it is a parameter and the state is trivial. -/
def Constant.machine {T : Type} (t : T) : Machine Unit T Unit where
  init := ()
  next := fun _ _ => ((), t)
  current := fun _ => some t
  reset := fun s => s

/-- `Map` (src/operators/map.rs): applies the projection `f` to the child's
output on `next`, and inside the `Option` on `current`; `reset` delegates. -/
def Map.machine {I O R St : Type} (i : Machine I O St) (f : O → R) : Machine I R St where
  init := i.init
  next := fun s input =>
    let step := i.next s input
    (step.1, f step.2)
  current := fun s => (i.current s).map f
  reset := i.reset

/-- `Composition` (src/operators/composition.rs): the inner indicator feeds
the outer one; `current` is the outer's; `reset` resets both. -/
def Composition.machine {I M O SI SO : Type}
    (inner : Machine I M SI) (outer : Machine M O SO) : Machine I O (SI × SO) where
  init := (inner.init, outer.init)
  next := fun s input =>
    let si := inner.next s.1 input
    let so := outer.next s.2 si.2
    ((si.1, so.1), so.2)
  current := fun s => outer.current s.2
  reset := fun s => (inner.reset s.1, outer.reset s.2)

/-- `Together` (src/operators/together.rs): one shared input is duplicated
to both children; `current` is conjunctive. -/
def Together.machine {T OL OR SL SR : Type}
    (lhs : Machine T OL SL) (rhs : Machine T OR SR) : Machine T (OL × OR) (SL × SR) where
  init := (lhs.init, rhs.init)
  next := fun s input =>
    let l := lhs.next s.1 input
    let r := rhs.next s.2 input
    ((l.1, r.1), (l.2, r.2))
  current := fun s =>
    match lhs.current s.1, rhs.current s.2 with
    | some l, some r => some (l, r)
    | _, _ => none
  reset := fun s => (lhs.reset s.1, rhs.reset s.2)

/-- `Diff` (src/operators/diff.rs): input is a pair, one per side; output is
left minus right; `current` is conjunctive. -/
def Diff.machine {IL IR O SL SR : Type} [Sub O]
    (lhs : Machine IL O SL) (rhs : Machine IR O SR) : Machine (IL × IR) O (SL × SR) where
  init := (lhs.init, rhs.init)
  next := fun s input =>
    let l := lhs.next s.1 input.1
    let r := rhs.next s.2 input.2
    ((l.1, r.1), l.2 - r.2)
  current := fun s =>
    match lhs.current s.1, rhs.current s.2 with
    | some l, some r => some (l - r)
    | _, _ => none
  reset := fun s => (lhs.reset s.1, rhs.reset s.2)

/-- `Mature` (src/operators/mature.rs): the state is the child state plus
the counter `cnt`, initialised to `period + 1`.  `next` always advances the
child; while `cnt > 1` it decrements the counter and suppresses the output,
and once `cnt <= 1` it zeroes the counter and passes the child output
through.  `current` mirrors the suppression state (note the Rust
`self.i.current().into()` wraps the child's `Option` in `Some`). -/
def Mature.machine {I O St : Type} (i : Machine I O St) (period : ℕ) :
    Machine I (Option O) (St × ℕ) where
  init := (i.init, period + 1)
  next := fun s input =>
    let step := i.next s.1 input
    if s.2 ≤ 1 then ((step.1, 0), some step.2)
    else ((step.1, s.2 - 1), none)
  current := fun s =>
    if s.2 ≤ 0 then some (i.current s.1) else none
  reset := fun s => (i.reset s.1, period + 1)

/-- The ring update of `Window::next` (src/operators/window.rs): when the
ring already holds `window_size` elements the oldest is popped, then the new
value is pushed at the back. -/
def Window.ringStep {O : Type} (window_size : ℕ) (ring : List O) (value : O) : List O :=
  (if window_size ≤ ring.length then ring.tail else ring) ++ [value]

/-- The view built by `Window::update_window` (src/operators/window.rs): the
ring's contents oldest first, with the missing leading slots filled by
repeating the earliest element until `window_size` slots are filled. -/
def Window.view {O : Type} (window_size : ℕ) (ring : List O) : List O :=
  match ring with
  | [] => []
  | a :: _ => List.replicate (window_size - ring.length) a ++ ring

/-- `Window` (src/operators/window.rs): state is the inner state, the ring
of the inner indicator's last outputs, and the `is_first` flag.  The unsafe
self-referential `buf` of the Rust code is a cache fully rewritten by
`update_window` on every advance, so it is represented by recomputing
`Window.view` from the ring. -/
def Window.machine {I O St : Type} (inner : Machine I O St) (window_size : ℕ) :
    Machine I (List O) (St × List O × Bool) where
  init := (inner.init, [], true)
  next := fun s input =>
    let step := inner.next s.1 input
    let ring := if 0 < window_size then Window.ringStep window_size s.2.1 step.2 else s.2.1
    ((step.1, ring, false), Window.view window_size ring)
  current := fun s =>
    if s.2.2 then none else some (Window.view window_size s.2.1)
  reset := fun s => (inner.reset s.1, [], true)

/-! ## Primitive indicators (src/indicators/)

For each primitive, the Lean structure holds exactly the mutable fields of
the Rust struct; the immutable `period`-style fields are curried parameters.
The trailing `self.current().unwrap()` of each `_next` is modelled by
`Option.getD`; the success of these unwraps is proved separately. -/

/-- Mutable state of `Sma` (src/indicators/sma.rs). -/
structure Sma where
  ring : List ℚ
  sum : Option ℚ
deriving DecidableEq, Repr

/-- `Sma::new`: fails for `period < 1`. -/
def Sma.new (period : ℕ) : Except Error Sma :=
  if period < 1 then
    .error (.invalidUintRange ⟨⟨"period", period⟩, .lowerBounded 1⟩)
  else
    .ok ⟨[], none⟩

/-- `Current for Sma`: the running sum divided by the period. -/
def Sma.current (period : ℕ) (s : Sma) : Option ℚ :=
  s.sum.map (fun sum => sum / (period : ℚ))

/-- `Sma::_next`: on the first input the ring is pre-filled with `period`
copies of the input and the sum initialised to `input * period`; afterwards
the oldest ring element is popped from the sum and the input pushed. -/
def Sma.next (period : ℕ) (s : Sma) (input : ℚ) : Sma × ℚ :=
  match s.sum with
  | some sum =>
      let sum := sum - s.ring.headI
      let ring := s.ring.tail ++ [input]
      let sum := sum + input
      (⟨ring, some sum⟩, sum / (period : ℚ))
  | none =>
      let ring := List.replicate period input
      let sum := input * (period : ℚ)
      (⟨ring, some sum⟩, sum / (period : ℚ))

/-- `Reset for Sma`: clears the ring and the sum. -/
def Sma.reset (_s : Sma) : Sma := ⟨[], none⟩

def Sma.machine (period : ℕ) : Machine ℚ ℚ Sma :=
  ⟨⟨[], none⟩, Sma.next period, Sma.current period, Sma.reset⟩

/-- Mutable state of `Ema` (src/indicators/ema.rs). -/
structure Ema where
  current : Option ℚ
deriving DecidableEq, Repr

/-- `Ema::new`: fails for `period < 1`. -/
def Ema.new (period : ℕ) : Except Error Ema :=
  if period < 1 then
    .error (.invalidUintRange ⟨⟨"period", period⟩, .lowerBounded 1⟩)
  else
    .ok ⟨none⟩

/-- `Ema::_next`. -/
def Ema.next (period : ℕ) (s : Ema) (input : ℚ) : Ema × ℚ :=
  match s.current with
  | some current =>
      let current := current + (input - current) * (2 / ((period + 1 : ℕ) : ℚ))
      (⟨some current⟩, current)
  | none => (⟨some input⟩, input)

/-- `Reset for Ema`. -/
def Ema.reset (_s : Ema) : Ema := ⟨none⟩

def Ema.machine (period : ℕ) : Machine ℚ ℚ Ema :=
  ⟨⟨none⟩, Ema.next period, Ema.current, Ema.reset⟩

/-- Mutable state of `Rma` (src/indicators/rma.rs). -/
structure Rma where
  current : Option ℚ
deriving DecidableEq, Repr

/-- `Rma::new`: fails for `period < 2`. -/
def Rma.new (period : ℕ) : Except Error Rma :=
  if period < 2 then
    .error (.invalidUintRange ⟨⟨"period", period⟩, .lowerBounded 2⟩)
  else
    .ok ⟨none⟩

/-- `Rma::_next`. -/
def Rma.next (period : ℕ) (s : Rma) (input : ℚ) : Rma × ℚ :=
  match s.current with
  | some current =>
      let current := current + (input - current) / (period : ℚ)
      (⟨some current⟩, current)
  | none => (⟨some input⟩, input)

/-- `Reset for Rma`. -/
def Rma.reset (_s : Rma) : Rma := ⟨none⟩

def Rma.machine (period : ℕ) : Machine ℚ ℚ Rma :=
  ⟨⟨none⟩, Rma.next period, Rma.current, Rma.reset⟩

/-- Mutable state of `Vwap` (src/indicators/vwap.rs). -/
structure Vwap where
  current : Option ℚ
  total_volume : ℚ
deriving DecidableEq, Repr

/-- `Vwap::new` (infallible). -/
def Vwap.new : Vwap := ⟨none, 0⟩

/-- `Vwap::_next`: input is a (price, volume) pair. -/
def Vwap.next (s : Vwap) (input : ℚ × ℚ) : Vwap × ℚ :=
  let total_volume := s.total_volume + input.2
  match s.current with
  | some current =>
      let current := current + (input.1 - current) * input.2 / total_volume
      (⟨some current, total_volume⟩, current)
  | none => (⟨some input.1, total_volume⟩, input.1)

/-- `Reset for Vwap`. -/
def Vwap.reset (_s : Vwap) : Vwap := ⟨none, 0⟩

def Vwap.machine : Machine (ℚ × ℚ) ℚ Vwap :=
  ⟨⟨none, 0⟩, Vwap.next, Vwap.current, Vwap.reset⟩

/-- Mutable state of `Vwma` (src/indicators/vwma.rs): the ring of
(price, volume) pairs and the running (sum, total_volume). -/
structure Vwma where
  ring : List (ℚ × ℚ)
  sum : Option (ℚ × ℚ)
deriving DecidableEq, Repr

/-- `Vwma::new`: fails for `period < 1`. -/
def Vwma.new (period : ℕ) : Except Error Vwma :=
  if period < 1 then
    .error (.invalidUintRange ⟨⟨"period", period⟩, .lowerBounded 1⟩)
  else
    .ok ⟨[], none⟩

/-- `Current for Vwma`. -/
def Vwma.current (s : Vwma) : Option ℚ :=
  s.sum.map (fun p => p.1 / p.2)

/-- `Vwma::_next`. -/
def Vwma.next (period : ℕ) (s : Vwma) (input : ℚ × ℚ) : Vwma × ℚ :=
  match s.sum with
  | some (sum, total_volume) =>
      let old := s.ring.headI
      let ring := s.ring.tail ++ [input]
      let sum := sum - old.1 * old.2 + input.1 * input.2
      let total_volume := total_volume - old.2 + input.2
      (⟨ring, some (sum, total_volume)⟩, sum / total_volume)
  | none =>
      let ring := List.replicate period input
      let sum := input.1 * input.2 * (period : ℚ)
      let total_volume := input.2 * (period : ℚ)
      (⟨ring, some (sum, total_volume)⟩, sum / total_volume)

/-- `Reset for Vwma`. -/
def Vwma.reset (_s : Vwma) : Vwma := ⟨[], none⟩

def Vwma.machine (period : ℕ) : Machine (ℚ × ℚ) ℚ Vwma :=
  ⟨⟨[], none⟩, Vwma.next period, Vwma.current, Vwma.reset⟩

/-- Mutable state of `Min` (src/indicators/min.rs). -/
structure Min where
  ring : List ℚ
  current : Option ℚ
deriving DecidableEq, Repr

/-- `Min::new`: fails for `period < 1`. -/
def Min.new (period : ℕ) : Except Error Min :=
  if period < 1 then
    .error (.invalidUintRange ⟨⟨"period", period⟩, .lowerBounded 1⟩)
  else
    .ok ⟨[], none⟩

/-- `Min::_next`: pops the oldest value, pushes the input, then updates the
running minimum (rescanning the ring only when the evicted value was the
minimum and the input does not improve on it). -/
def Min.next (period : ℕ) (s : Min) (input : ℚ) : Min × ℚ :=
  match s.current with
  | some m =>
      let old_val := s.ring.headI
      let ring := s.ring.tail ++ [input]
      let m :=
        if input ≤ m then input
        else if m = old_val then ring.tail.foldl min ring.headI
        else m
      (⟨ring, some m⟩, m)
  | none => (⟨List.replicate period input, some input⟩, input)

/-- `Reset for Min`. -/
def Min.reset (_s : Min) : Min := ⟨[], none⟩

def Min.machine (period : ℕ) : Machine ℚ ℚ Min :=
  ⟨⟨[], none⟩, Min.next period, Min.current, Min.reset⟩

/-- Mutable state of `Max` (src/indicators/max.rs). -/
structure Max where
  ring : List ℚ
  current : Option ℚ
deriving DecidableEq, Repr

/-- `Max::new`: fails for `period < 1`. -/
def Max.new (period : ℕ) : Except Error Max :=
  if period < 1 then
    .error (.invalidUintRange ⟨⟨"period", period⟩, .lowerBounded 1⟩)
  else
    .ok ⟨[], none⟩

/-- `Max::_next`. -/
def Max.next (period : ℕ) (s : Max) (input : ℚ) : Max × ℚ :=
  match s.current with
  | some m =>
      let old_val := s.ring.headI
      let ring := s.ring.tail ++ [input]
      let m :=
        if m ≤ input then input
        else if m = old_val then ring.tail.foldl max ring.headI
        else m
      (⟨ring, some m⟩, m)
  | none => (⟨List.replicate period input, some input⟩, input)

/-- `Reset for Max`. -/
def Max.reset (_s : Max) : Max := ⟨[], none⟩

def Max.machine (period : ℕ) : Machine ℚ ℚ Max :=
  ⟨⟨[], none⟩, Max.next period, Max.current, Max.reset⟩

/-- Mutable state of `MinIndex` (src/indicators/min_index.rs).  The ring is
kept newest first (`push_front` / `pop_back`). -/
structure MinIndex where
  ring : List ℚ
  current : Option ℕ
deriving DecidableEq, Repr

/-- `MinIndex::new`: fails for `period < 1`. -/
def MinIndex.new (period : ℕ) : Except Error MinIndex :=
  if period < 1 then
    .error (.invalidUintRange ⟨⟨"period", period⟩, .lowerBounded 1⟩)
  else
    .ok ⟨[], none⟩

/-- The rescan loop of `MinIndex::_next`: iterates over the enumerated ring,
moving the index whenever a strictly smaller value than the one at the
current index is seen. -/
def MinIndex.rescan (ring : List ℚ) (start : ℕ) : ℕ :=
  (List.zip (List.range ring.length) ring).foldl
    (fun mi p => if p.2 < ring.getD mi 0 then p.1 else mi) start

/-- `MinIndex::_next`. -/
def MinIndex.next (period : ℕ) (s : MinIndex) (input : ℚ) : MinIndex × ℕ :=
  match s.current with
  | some min_index =>
      let m := s.ring.getD min_index 0
      let old_value := s.ring.getLastD 0
      let ring := input :: s.ring.dropLast
      let min_index :=
        if input ≤ m then 0
        else if m = old_value then MinIndex.rescan ring min_index
        else min_index + 1
      (⟨ring, some min_index⟩, min_index)
  | none => (⟨List.replicate period input, some 0⟩, 0)

/-- `Reset for MinIndex`. -/
def MinIndex.reset (_s : MinIndex) : MinIndex := ⟨[], none⟩

def MinIndex.machine (period : ℕ) : Machine ℚ ℕ MinIndex :=
  ⟨⟨[], none⟩, MinIndex.next period, MinIndex.current, MinIndex.reset⟩

/-- Mutable state of `MaxIndex` (src/indicators/max_index.rs). -/
structure MaxIndex where
  ring : List ℚ
  current : Option ℕ
deriving DecidableEq, Repr

/-- `MaxIndex::new`: fails for `period < 1`. -/
def MaxIndex.new (period : ℕ) : Except Error MaxIndex :=
  if period < 1 then
    .error (.invalidUintRange ⟨⟨"period", period⟩, .lowerBounded 1⟩)
  else
    .ok ⟨[], none⟩

/-- The rescan loop of `MaxIndex::_next`. -/
def MaxIndex.rescan (ring : List ℚ) (start : ℕ) : ℕ :=
  (List.zip (List.range ring.length) ring).foldl
    (fun mi p => if ring.getD mi 0 < p.2 then p.1 else mi) start

/-- `MaxIndex::_next`. -/
def MaxIndex.next (period : ℕ) (s : MaxIndex) (input : ℚ) : MaxIndex × ℕ :=
  match s.current with
  | some max_index =>
      let m := s.ring.getD max_index 0
      let old_value := s.ring.getLastD 0
      let ring := input :: s.ring.dropLast
      let max_index :=
        if m ≤ input then 0
        else if m = old_value then MaxIndex.rescan ring max_index
        else max_index + 1
      (⟨ring, some max_index⟩, max_index)
  | none => (⟨List.replicate period input, some 0⟩, 0)

/-- `Reset for MaxIndex`. -/
def MaxIndex.reset (_s : MaxIndex) : MaxIndex := ⟨[], none⟩

def MaxIndex.machine (period : ℕ) : Machine ℚ ℕ MaxIndex :=
  ⟨⟨[], none⟩, MaxIndex.next period, MaxIndex.current, MaxIndex.reset⟩

/-- Output of `StandardDeviation` (src/indicators/standard_deviation.rs). -/
structure StandardDeviationOutput where
  mean : ℚ
  sd : ℚ
deriving DecidableEq, Repr

/-- Mutable state of `StandardDeviation`. -/
structure StandardDeviation where
  ring : List ℚ
  mean_sse : Option (ℚ × ℚ)
deriving DecidableEq, Repr

/-- `StandardDeviation::new`: fails for `period < 1`. -/
def StandardDeviation.new (period : ℕ) : Except Error StandardDeviation :=
  if period < 1 then
    .error (.invalidUintRange ⟨⟨"period", period⟩, .lowerBounded 1⟩)
  else
    .ok ⟨[], none⟩

/-- `Current for StandardDeviation`: `sqrtQ` abstracts `f64::sqrt`, which
has no exact rational counterpart. -/
def StandardDeviation.current (period : ℕ) (sqrtQ : ℚ → ℚ) (s : StandardDeviation) :
    Option StandardDeviationOutput :=
  s.mean_sse.map (fun p => ⟨p.1, sqrtQ (p.2 / (period : ℚ))⟩)

/-- `StandardDeviation::_next` (Welford-style update over the ring). -/
def StandardDeviation.next (period : ℕ) (sqrtQ : ℚ → ℚ) (s : StandardDeviation)
    (input : ℚ) : StandardDeviation × StandardDeviationOutput :=
  match s.mean_sse with
  | some (mean, sse) =>
      let old_input := s.ring.headI
      let ring := s.ring.tail ++ [input]
      let delta := input - old_input
      let old_mean := mean
      let mean := mean + delta / (period : ℚ)
      let delta2 := input - mean + old_input - old_mean
      let sse := sse + delta * delta2
      (⟨ring, some (mean, sse)⟩, ⟨mean, sqrtQ (sse / (period : ℚ))⟩)
  | none =>
      let ring := List.replicate period input
      (⟨ring, some (input, 0)⟩, ⟨input, sqrtQ 0⟩)

/-- `Reset for StandardDeviation`. -/
def StandardDeviation.reset (_s : StandardDeviation) : StandardDeviation := ⟨[], none⟩

def StandardDeviation.machine (period : ℕ) (sqrtQ : ℚ → ℚ) :
    Machine ℚ StandardDeviationOutput StandardDeviation :=
  ⟨⟨[], none⟩, StandardDeviation.next period sqrtQ,
    StandardDeviation.current period sqrtQ, StandardDeviation.reset⟩

/-- Mutable state of `Rsi` (src/indicators/rsi.rs). -/
structure Rsi where
  up : Rma
  down : Rma
  prev_input : Option ℚ
deriving DecidableEq, Repr

/-- `Rsi::new`: builds two `Rma`s, so it fails exactly when `Rma::new`
fails (`period < 2`). -/
def Rsi.new (period : ℕ) : Except Error Rsi :=
  (Rma.new period).bind fun up =>
  (Rma.new period).bind fun down =>
  .ok ⟨up, down, none⟩

/-- `Current for Rsi`. -/
def Rsi.current (s : Rsi) : Option ℚ :=
  match s.up.current, s.down.current with
  | some up, some down =>
      some (if up ≤ 0 ∧ down ≤ 0 then (0.5 : ℚ)
            else if up ≤ 0 then 0
            else if down ≤ 0 then 1
            else 1 / (1 + down / up))
  | _, _ => none

/-- `Rsi::_next`: feeds the positive and negative parts of the change since
the previous input into the two `Rma`s (zero on the very first input). -/
def Rsi.next (period : ℕ) (s : Rsi) (input : ℚ) : Rsi × ℚ :=
  let s' : Rsi :=
    match s.prev_input with
    | some prev_input =>
        let change := input - prev_input
        ⟨(Rma.next period s.up (max change 0)).1,
         (Rma.next period s.down (max (-change) 0)).1, some input⟩
    | none =>
        ⟨(Rma.next period s.up 0).1, (Rma.next period s.down 0).1, some input⟩
  (s', (Rsi.current s').getD 0)

/-- `Reset for Rsi`. -/
def Rsi.reset (s : Rsi) : Rsi := ⟨Rma.reset s.up, Rma.reset s.down, none⟩

def Rsi.machine (period : ℕ) : Machine ℚ ℚ Rsi :=
  ⟨⟨⟨none⟩, ⟨none⟩, none⟩, Rsi.next period, Rsi.current, Rsi.reset⟩

/-- Output of `Macd` (src/indicators/macd.rs). -/
structure MacdOutput where
  macd : ℚ
  signal : ℚ
  histogram : ℚ
deriving DecidableEq, Repr

/-- Mutable state of `Macd`: the `Diff<Ema, Ema>` line (a pair of `Ema`
states) and the signal `Sma`. -/
structure Macd where
  macd : Ema × Ema
  signal : Sma
deriving DecidableEq, Repr

/-- `Macd::new`: rejects `short_period >= long_period` before constructing
the children, then propagates any child construction failure. -/
def Macd.new (short_period long_period signal_period : ℕ) : Except Error Macd :=
  if ¬ short_period < long_period then
    .error (.invalidRelation ⟨"<", ⟨"short_period", short_period⟩,
      ⟨"long_period", long_period⟩⟩)
  else
    (Ema.new short_period).bind fun short =>
    (Ema.new long_period).bind fun long =>
    (Sma.new signal_period).bind fun signal =>
    .ok ⟨(short, long), signal⟩

/-- `Current for Macd`. -/
def Macd.current (short_period long_period signal_period : ℕ) (s : Macd) :
    Option MacdOutput :=
  match (Diff.machine (Ema.machine short_period) (Ema.machine long_period)).current s.macd,
        Sma.current signal_period s.signal with
  | some macd, some signal => some ⟨macd, signal, macd - signal⟩
  | _, _ => none

/-- `Macd::_next`: feeds the input to both EMAs through `Diff`, feeds the
difference to the signal SMA, and reads the combined current value. -/
def Macd.next (short_period long_period signal_period : ℕ) (s : Macd) (input : ℚ) :
    Macd × MacdOutput :=
  let d := (Diff.machine (Ema.machine short_period) (Ema.machine long_period)).next
    s.macd (input, input)
  let sg := Sma.next signal_period s.signal d.2
  let s' : Macd := ⟨d.1, sg.1⟩
  (s', (Macd.current short_period long_period signal_period s').getD ⟨0, 0, 0⟩)

/-- `Reset for Macd`. -/
def Macd.reset (s : Macd) : Macd :=
  ⟨(Ema.reset s.macd.1, Ema.reset s.macd.2), Sma.reset s.signal⟩

def Macd.machine (short_period long_period signal_period : ℕ) : Machine ℚ MacdOutput Macd :=
  ⟨⟨(⟨none⟩, ⟨none⟩), ⟨[], none⟩⟩, Macd.next short_period long_period signal_period,
    Macd.current short_period long_period signal_period, Macd.reset⟩

/-- Output of `BolingerBands` (src/indicators/bolinger_bands.rs). -/
structure BolingerBandsOutput where
  average : ℚ
  upper_bound : ℚ
  lower_bound : ℚ
deriving DecidableEq, Repr

/-- Mutable state of `BolingerBands` (the multiplier is immutable). -/
structure BolingerBands where
  sd : StandardDeviation
deriving DecidableEq, Repr

/-- `BolingerBands::new`: validates the period through
`StandardDeviation::new` first, then rejects `multiplier < 0`. -/
def BolingerBands.new (period : ℕ) (multiplier : ℚ) : Except Error BolingerBands :=
  (StandardDeviation.new period).bind fun sd =>
  if multiplier < 0 then
    .error (.invalidFloatRange ⟨⟨"multiplier", multiplier⟩, .lowerBounded 0⟩)
  else
    .ok ⟨sd⟩

/-- `Current for BolingerBands`. -/
def BolingerBands.current (period : ℕ) (multiplier : ℚ) (sqrtQ : ℚ → ℚ)
    (s : BolingerBands) : Option BolingerBandsOutput :=
  (StandardDeviation.current period sqrtQ s.sd).map
    (fun x => ⟨x.mean, x.mean + x.sd * multiplier, x.mean - x.sd * multiplier⟩)

/-- `BolingerBands::_next`. -/
def BolingerBands.next (period : ℕ) (multiplier : ℚ) (sqrtQ : ℚ → ℚ)
    (s : BolingerBands) (input : ℚ) : BolingerBands × BolingerBandsOutput :=
  let s' : BolingerBands := ⟨(StandardDeviation.next period sqrtQ s.sd input).1⟩
  (s', (BolingerBands.current period multiplier sqrtQ s').getD ⟨0, 0, 0⟩)

/-- `Reset for BolingerBands`. -/
def BolingerBands.reset (s : BolingerBands) : BolingerBands :=
  ⟨StandardDeviation.reset s.sd⟩

def BolingerBands.machine (period : ℕ) (multiplier : ℚ) (sqrtQ : ℚ → ℚ) :
    Machine ℚ BolingerBandsOutput BolingerBands :=
  ⟨⟨⟨[], none⟩⟩, BolingerBands.next period multiplier sqrtQ,
    BolingerBands.current period multiplier sqrtQ, BolingerBands.reset⟩

/-- Output of `AroonIndicator` (src/indicators/aroon_indicator.rs). -/
structure AroonIndicatorOutput where
  aroon_up : ℚ
  aroon_down : ℚ
deriving DecidableEq, Repr

/-- Mutable state of `AroonIndicator`. -/
structure AroonIndicator where
  max_index : MaxIndex
  min_index : MinIndex
deriving DecidableEq, Repr

/-- `AroonIndicator::new`: fails for `period < 1`; the child index trackers
use `period + 1`. -/
def AroonIndicator.new (period : ℕ) : Except Error AroonIndicator :=
  if period < 1 then
    .error (.invalidUintRange ⟨⟨"period", period⟩, .lowerBounded 1⟩)
  else
    (MinIndex.new (period + 1)).bind fun min_index =>
    (MaxIndex.new (period + 1)).bind fun max_index =>
    .ok ⟨max_index, min_index⟩

/-- `Current for AroonIndicator` (`usize` subtraction is truncated, as in
Rust). -/
def AroonIndicator.current (period : ℕ) (s : AroonIndicator) :
    Option AroonIndicatorOutput :=
  match s.min_index.current, s.max_index.current with
  | some min_index, some max_index =>
      some ⟨((period - max_index : ℕ) : ℚ) / (period : ℚ),
            ((period - min_index : ℕ) : ℚ) / (period : ℚ)⟩
  | _, _ => none

/-- `AroonIndicator::_next`. -/
def AroonIndicator.next (period : ℕ) (s : AroonIndicator) (input : ℚ) :
    AroonIndicator × AroonIndicatorOutput :=
  let s' : AroonIndicator :=
    ⟨(MaxIndex.next (period + 1) s.max_index input).1,
     (MinIndex.next (period + 1) s.min_index input).1⟩
  (s', (AroonIndicator.current period s').getD ⟨0, 0⟩)

/-- `Reset for AroonIndicator`. -/
def AroonIndicator.reset (s : AroonIndicator) : AroonIndicator :=
  ⟨MaxIndex.reset s.max_index, MinIndex.reset s.min_index⟩

def AroonIndicator.machine (period : ℕ) : Machine ℚ AroonIndicatorOutput AroonIndicator :=
  ⟨⟨⟨[], none⟩, ⟨[], none⟩⟩, AroonIndicator.next period,
    AroonIndicator.current period, AroonIndicator.reset⟩

/-- Mutable state of `AroonOscillator` (src/indicators/aroon_oscillator.rs). -/
structure AroonOscillator where
  aroon_indicator : AroonIndicator
deriving DecidableEq, Repr

/-- `AroonOscillator::new`. -/
def AroonOscillator.new (period : ℕ) : Except Error AroonOscillator :=
  (AroonIndicator.new period).bind fun aroon_indicator =>
  .ok ⟨aroon_indicator⟩

/-- `Current for AroonOscillator`. -/
def AroonOscillator.current (period : ℕ) (s : AroonOscillator) : Option ℚ :=
  (AroonIndicator.current period s.aroon_indicator).map
    (fun x => x.aroon_up - x.aroon_down)

/-- `AroonOscillator::_next`. -/
def AroonOscillator.next (period : ℕ) (s : AroonOscillator) (input : ℚ) :
    AroonOscillator × ℚ :=
  let s' : AroonOscillator := ⟨(AroonIndicator.next period s.aroon_indicator input).1⟩
  (s', (AroonOscillator.current period s').getD 0)

/-- `Reset for AroonOscillator`. -/
def AroonOscillator.reset (s : AroonOscillator) : AroonOscillator :=
  ⟨AroonIndicator.reset s.aroon_indicator⟩

def AroonOscillator.machine (period : ℕ) : Machine ℚ ℚ AroonOscillator :=
  ⟨⟨⟨⟨[], none⟩, ⟨[], none⟩⟩⟩, AroonOscillator.next period,
    AroonOscillator.current period, AroonOscillator.reset⟩

/-- Output of `Stochastics` (src/indicators/stochastics.rs). -/
structure StochasticsOutput where
  k : ℚ
  d : ℚ
  slow_d : ℚ
deriving DecidableEq, Repr

/-- Mutable state of `Stochastics`. -/
structure Stochastics where
  min : Min
  max : Max
  d_numerator : Sma
  d_denominator : Sma
  slow_d : Sma
  current : Option StochasticsOutput
deriving DecidableEq, Repr

/-- `Stochastics::new`. -/
def Stochastics.new (n_period m_period x_period : ℕ) : Except Error Stochastics :=
  (Min.new n_period).bind fun min =>
  (Max.new n_period).bind fun max =>
  (Sma.new m_period).bind fun d_numerator =>
  (Sma.new m_period).bind fun d_denominator =>
  (Sma.new x_period).bind fun slow_d =>
  .ok ⟨min, max, d_numerator, d_denominator, slow_d, none⟩

/-- `Stochastics::_next`. -/
def Stochastics.next (n_period m_period x_period : ℕ) (s : Stochastics) (input : ℚ) :
    Stochastics × StochasticsOutput :=
  let mn := Min.next n_period s.min input
  let mx := Max.next n_period s.max input
  match s.current with
  | some _ =>
      let dn := Sma.next m_period s.d_numerator (input - mn.2)
      let dd := Sma.next m_period s.d_denominator (mx.2 - mn.2)
      let k := if mn.2 = mx.2 then (0.5 : ℚ) else (input - mn.2) / (mx.2 - mn.2)
      let d := if dd.2 = 0 then (0.5 : ℚ) else dn.2 / dd.2
      let sd := Sma.next x_period s.slow_d d
      let out : StochasticsOutput := ⟨k, d, sd.2⟩
      (⟨mn.1, mx.1, dn.1, dd.1, sd.1, some out⟩, out)
  | none =>
      let dn := Sma.next m_period s.d_numerator 0
      let dd := Sma.next m_period s.d_denominator 0
      let sd := Sma.next x_period s.slow_d 0
      let out : StochasticsOutput := ⟨0.5, 0.5, 0.5⟩
      (⟨mn.1, mx.1, dn.1, dd.1, sd.1, some out⟩, out)

/-- `Reset for Stochastics`. -/
def Stochastics.reset (s : Stochastics) : Stochastics :=
  ⟨Min.reset s.min, Max.reset s.max, Sma.reset s.d_numerator,
   Sma.reset s.d_denominator, Sma.reset s.slow_d, none⟩

def Stochastics.machine (n_period m_period x_period : ℕ) :
    Machine ℚ StochasticsOutput Stochastics :=
  ⟨⟨⟨[], none⟩, ⟨[], none⟩, ⟨[], none⟩, ⟨[], none⟩, ⟨[], none⟩, none⟩,
    Stochastics.next n_period m_period x_period, Stochastics.current, Stochastics.reset⟩

/-- The last `N` elements of a list (the contents of a bounded ring of
capacity `N` after all of `l` has been pushed through it). -/
def lastN {O : Type} (N : ℕ) (l : List O) : List O := l.drop (l.length - N)

/-! ## General lemmas -/

theorem Machine.run_nil {I O St : Type} (m : Machine I O St) (s : St) :
    m.run s [] = (s, []) := rfl

theorem Machine.run_preserve {I O St : Type} (m : Machine I O St) (P : St → Prop)
    (h : ∀ s x, P s → P (m.next s x).1) :
    ∀ (S : List I) (s : St), P s → P (m.run s S).1 := by
  intro S
  induction S with
  | nil => intro s hs; exact hs
  | cons x xs ih => intro s hs; exact ih _ (h s x hs)

/-- Generalisation of the Mature run over an arbitrary counter value:
while the counter is `cnt`, the first `cnt - 1` outputs are suppressed and
the rest pass through. -/
theorem Mature.run_general {I O St : Type} (i : Machine I O St) (period : ℕ) :
    ∀ (S : List I) (s : St) (cnt : ℕ),
      ((Mature.machine i period).run (s, cnt) S).2
        = ((i.run s S).2.take (cnt - 1)).map (fun _ => (none : Option O))
            ++ ((i.run s S).2.drop (cnt - 1)).map some := by
  intro S
  induction S with
  | nil => intro s cnt; simp [Machine.run]
  | cons x xs ih =>
      intro s cnt
      have h1 : ∀ c : ℕ, (Mature.machine i period).next (s, c) x
          = if c ≤ 1 then (((i.next s x).1, 0), some (i.next s x).2)
            else (((i.next s x).1, c - 1), none) := fun _ => rfl
      by_cases h : cnt ≤ 1
      · rw [Machine.run_cons, h1, if_pos h, Machine.run_cons,
          show cnt - 1 = 0 by omega, ih]
        simp
      · rw [Machine.run_cons, h1, if_neg h, Machine.run_cons,
          show cnt - 1 = (cnt - 2) + 1 by omega, ih]
        simp

/-! ## Claim theorems -/

/-- **C1 counterexample**: with warm-up length N = 0, the very first call to
`next` already returns `Some` of the child's output (here `Identity` echoing
`1`), so it is false that the first N+1 = 1 calls return the absent value
and that N = 0 suppresses one advance. -/
theorem mature_claim_counterexample :
    ((Mature.machine (Identity.machine ℚ) 0).run
        (Mature.machine (Identity.machine ℚ) 0).init [1]).2 = [some 1]
    ∧ ((Mature.machine (Identity.machine ℚ) 0).run
        (Mature.machine (Identity.machine ℚ) 0).init [1]).2 ≠ [none] := by
  constructor <;> simp [Machine.run, Mature.machine, Identity.machine]

/-- **C1 (amended)**: for the Mature combinator with warm-up length N ≥ 0
wrapping any child indicator, the first N calls to `next` return the absent
value regardless of the child's output, and every call from the (N+1)-th
onward returns `Some` of the child's output for that call; in particular,
for N = 0 no advance is suppressed. -/
theorem mature_threshold {I O St : Type} (i : Machine I O St) (N : ℕ) (S : List I) :
    ((Mature.machine i N).run (Mature.machine i N).init S).2
      = ((i.run i.init S).2.take N).map (fun _ => (none : Option O))
          ++ ((i.run i.init S).2.drop N).map some := by
  have h := Mature.run_general i N S i.init (N + 1)
  simpa using h

/-- **C2**: feeding `[1.0, 2.0, 1.0, 2.0, 1.0, 2.0]` through `Mature(3)`
wrapping `Sma(4)` produces `[None, None, None, Some(1.5), Some(1.5),
Some(1.5)]`. -/
theorem mature_sma_concrete :
    ((Mature.machine (Sma.machine 4) 3).run (Mature.machine (Sma.machine 4) 3).init
        [1, 2, 1, 2, 1, 2]).2
      = [none, none, none, some (3/2 : ℚ), some (3/2), some (3/2)] := by
  simp only [Machine.run, Mature.machine, Sma.machine, Sma.next]
  norm_num [List.replicate]

/-- **C9**: feeding the pairs `[(0,0), (1,1), (0,2), (2,0), (3,1), (1,9)]`
through `Diff(Identity, Identity)` produces `[0.0, 0.0, -2.0, 2.0, 2.0,
-8.0]`. -/
theorem diff_identity_concrete :
    ((Diff.machine (Identity.machine ℚ) (Identity.machine ℚ)).run
        (Diff.machine (Identity.machine ℚ) (Identity.machine ℚ)).init
        [(0, 0), (1, 1), (0, 2), (2, 0), (3, 1), (1, 9)]).2
      = [0, 0, -2, 2, 2, -8] := by
  simp only [Machine.run, Identity.machine, Diff.machine]
  norm_num

/-- **C10**: for every valid period `p ≥ 1`, the first `next` after
construction (or after reset, which restores exactly the construction
state) pre-fills the ring with `p` copies of the input, initialises the sum
to `input * p`, and returns exactly the input; `current` is `None` before
any advance and `Some` after every advance. -/
theorem sma_first_advance (period : ℕ) (hp : 1 ≤ period) :
    Sma.new period = .ok ⟨[], none⟩
    ∧ (∀ x : ℚ, Sma.next period ⟨[], none⟩ x
        = (⟨List.replicate period x, some (x * (period : ℚ))⟩, x))
    ∧ (∀ s : Sma, Sma.reset s = ⟨[], none⟩)
    ∧ Sma.current period ⟨[], none⟩ = none
    ∧ ∀ (s : Sma) (x : ℚ), (Sma.current period (Sma.next period s x).1).isSome := by
  refine ⟨?_, ?_, fun _ => rfl, rfl, ?_⟩
  · simp [Sma.new, Nat.not_lt.mpr hp]
  · intro x
    have hQ : (period : ℚ) ≠ 0 := Nat.cast_ne_zero.mpr (by omega)
    simp [Sma.next, mul_div_cancel_right₀ _ hQ]
  · intro s x
    cases h : s.sum <;> simp [Sma.next, h, Sma.current]

theorem sma_first_advance_witness :
    Sma.next 3 ⟨[], none⟩ (7 : ℚ)
      = (⟨List.replicate 3 7, some (7 * (3 : ℚ))⟩, 7) :=
  (sma_first_advance 3 (by decide)).2.1 7

/-- **C4**: for any child indicator, any function `f`, and every input at
every step (i.e. from every state), `Map(i, f).next x` is `f` applied to
`i.next x` on the same state (threading the child state unchanged); over any
input sequence the outputs are the child's outputs mapped through `f`; and
`Map(i, f).current` is the child's current value with `f` applied inside the
`Option`, absent exactly when the child is absent. -/
theorem map_contract {I O R St : Type} (i : Machine I O St) (f : O → R) :
    (∀ (s : St) (x : I),
        (Map.machine i f).next s x = ((i.next s x).1, f (i.next s x).2))
    ∧ (∀ (s : St) (S : List I),
        ((Map.machine i f).run s S).2 = ((i.run s S).2).map f
        ∧ ((Map.machine i f).run s S).1 = (i.run s S).1)
    ∧ (∀ s : St, (Map.machine i f).current s = (i.current s).map f)
    ∧ (∀ s : St, ((Map.machine i f).current s = none ↔ i.current s = none)) := by
  refine ⟨fun s x => rfl, ?_, fun s => rfl, fun s => by cases h : i.current s <;>
    simp [Map.machine, h]⟩
  intro s S
  induction S generalizing s with
  | nil => simp [Machine.run]
  | cons x xs ih =>
      rw [Machine.run_cons, Machine.run_cons]
      exact ⟨congrArg₂ List.cons rfl (ih ((i.next s x).1)).1, (ih ((i.next s x).1)).2⟩

/-- **C5**: for any inner and outer indicators with matching types and every
input at every step, `Composition(inner, outer).next x` advances the inner
indicator, feeds its output to the outer one and returns the outer's output;
over any input sequence the composite's outputs are the outer's run over the
inner's outputs; and `current` is the outer's current value (the inner's
intermediate value is not observable). -/
theorem composition_contract {I M O SI SO : Type}
    (inner : Machine I M SI) (outer : Machine M O SO) :
    (∀ (si : SI) (so : SO) (x : I),
        (Composition.machine inner outer).next (si, so) x
          = (((inner.next si x).1, (outer.next so (inner.next si x).2).1),
             (outer.next so (inner.next si x).2).2))
    ∧ (∀ (si : SI) (so : SO) (S : List I),
        ((Composition.machine inner outer).run (si, so) S).2
          = (outer.run so ((inner.run si S).2)).2)
    ∧ (∀ s : SI × SO, (Composition.machine inner outer).current s
          = outer.current s.2) := by
  refine ⟨fun si so x => rfl, ?_, fun s => rfl⟩
  intro si so S
  induction S generalizing si so with
  | nil => simp [Machine.run]
  | cons x xs ih =>
      rw [Machine.run_cons, Machine.run_cons, Machine.run_cons]
      simp only [List.cons.injEq]
      exact ⟨rfl, ih _ _⟩

/-- **C6**: `current` on `Together(lhs, rhs)` and on `Diff(lhs, rhs)` is
conjunctive: absent whenever either child's current value is absent, and
when both children hold values `lv` and `rv` it is `Some (lv, rv)` for
Together and `Some (lv - rv)` for Diff; partial availability is never
surfaced. -/
theorem together_diff_current_conjunctive {T IL IR OL OR O SL SR : Type} [Sub O]
    (lhs : Machine T OL SL) (rhs : Machine T OR SR)
    (dlhs : Machine IL O SL) (drhs : Machine IR O SR) :
    (∀ (sl : SL) (sr : SR),
        ((lhs.current sl = none ∨ rhs.current sr = none)
            → (Together.machine lhs rhs).current (sl, sr) = none)
        ∧ (∀ lv rv, lhs.current sl = some lv → rhs.current sr = some rv
            → (Together.machine lhs rhs).current (sl, sr) = some (lv, rv)))
    ∧ (∀ (sl : SL) (sr : SR),
        ((dlhs.current sl = none ∨ drhs.current sr = none)
            → (Diff.machine dlhs drhs).current (sl, sr) = none)
        ∧ (∀ lv rv, dlhs.current sl = some lv → drhs.current sr = some rv
            → (Diff.machine dlhs drhs).current (sl, sr) = some (lv - rv))) := by
  constructor
  · intro sl sr
    constructor
    · rintro (h | h) <;>
        · cases h1 : lhs.current sl <;> cases h2 : rhs.current sr <;>
            simp_all [Together.machine]
    · intro lv rv h1 h2
      simp [Together.machine, h1, h2]
  · intro sl sr
    constructor
    · rintro (h | h) <;>
        · cases h1 : dlhs.current sl <;> cases h2 : drhs.current sr <;>
            simp_all [Diff.machine]
    · intro lv rv h1 h2
      simp [Diff.machine, h1, h2]

/-- Witness for the conjunctive-readiness theorem at concrete machines and
states: two `Identity ℚ` children, the left having seen `3` and the right
`5` (both present), and a fresh right child (absent). -/
theorem together_diff_current_conjunctive_witness :
    (Together.machine (Identity.machine ℚ) (Identity.machine ℚ)).current
        (some 3, some 5) = some (3, 5)
    ∧ (Together.machine (Identity.machine ℚ) (Identity.machine ℚ)).current
        (some 3, none) = none
    ∧ (Diff.machine (Identity.machine ℚ) (Identity.machine ℚ)).current
        (some 3, some 5) = some (3 - 5) :=
  ⟨((together_diff_current_conjunctive (Identity.machine ℚ) (Identity.machine ℚ)
      (Identity.machine ℚ) (Identity.machine ℚ)).1 (some 3) (some 5)).2 3 5 rfl rfl,
   ((together_diff_current_conjunctive (Identity.machine ℚ) (Identity.machine ℚ)
      (Identity.machine ℚ) (Identity.machine ℚ)).1 (some 3) none).1 (Or.inr rfl),
   ((together_diff_current_conjunctive (Identity.machine ℚ) (Identity.machine ℚ)
      (Identity.machine ℚ) (Identity.machine ℚ)).2 (some 3) (some 5)).2 3 5 rfl rfl⟩

/-- Pushing one more value through the bounded ring keeps it the last-N
suffix of everything pushed so far. -/
theorem Window.ringStep_lastN {O : Type} (N : ℕ) (hN : 0 < N) (pre : List O) (v : O) :
    Window.ringStep N (lastN N pre) v = lastN N (pre ++ [v]) := by
  unfold Window.ringStep lastN
  rcases le_or_lt N pre.length with h | h
  · rw [if_pos (by simp [List.length_drop]; omega)]
    rw [List.tail_drop, List.length_append, List.length_singleton,
      List.drop_append_of_le_length (by omega)]
    rw [show pre.length - N + 1 = pre.length + 1 - N by omega]
  · rw [if_neg (by simp [List.length_drop]; omega)]
    rw [show pre.length - N = 0 by omega, List.length_append, List.length_singleton,
      show pre.length + 1 - N = 0 by omega]
    simp

/-- A run of `Window` with the ring holding the last-N suffix of the child
outputs accumulated so far (`pre`) produces, per step `j`, the
`update_window` view of the last N of `pre` plus the first `j+1` new child
outputs. -/
theorem Window.run_trace {I O St : Type} (m : Machine I O St) (N : ℕ) (hN : 0 < N) :
    ∀ (S : List I) (s : St) (pre : List O) (b : Bool),
      ((Window.machine m N).run (s, lastN N pre, b) S).2
        = (List.range (m.run s S).2.length).map (fun j =>
            Window.view N (lastN N (pre ++ (m.run s S).2.take (j + 1)))) := by
  intro S
  induction S with
  | nil => intro s pre b; simp [Machine.run]
  | cons x xs ih =>
      intro s pre b
      have hn : (Window.machine m N).next (s, lastN N pre, b) x
          = (((m.next s x).1, lastN N (pre ++ [(m.next s x).2]), false),
             Window.view N (lastN N (pre ++ [(m.next s x).2]))) := by
        simp only [Window.machine, if_pos hN, Window.ringStep_lastN N hN]
      rw [Machine.run_cons, hn, Machine.run_cons]
      simp only [ih ((m.next s x).1) (pre ++ [(m.next s x).2]) false]
      rw [List.length_cons, List.range_succ_eq_map]
      simp only [List.map_cons, List.map_map]
      refine congrArg₂ List.cons rfl ?_
      congr 1
      funext j
      simp [Function.comp, List.take_succ_cons, List.append_assoc]

/-- **C7**: for `Window` with window size N > 0, each `next` feeds the input
to the child and appends the child's output to a bounded ring that evicts
the oldest element when it holds N, and the j-th output is the view of the
last min(N, j+1) child outputs, oldest first; while fewer than N outputs
have accumulated the missing leading slots repeat the earliest produced
output; every returned view has length exactly N. -/
theorem window_contract {I O St : Type} (m : Machine I O St) (N : ℕ) (S : List I)
    (hN : 0 < N) :
    (((Window.machine m N).run (Window.machine m N).init S).2
      = (List.range (m.run m.init S).2.length).map (fun j =>
          Window.view N (lastN N ((m.run m.init S).2.take (j + 1)))))
    ∧ (∀ (a : O) (l : List O),
        Window.view N (a :: l) = List.replicate (N - (a :: l).length) a ++ (a :: l))
    ∧ (∀ out ∈ ((Window.machine m N).run (Window.machine m N).init S).2,
        out.length = N) := by
  have hrun : ((Window.machine m N).run (Window.machine m N).init S).2
      = (List.range (m.run m.init S).2.length).map (fun j =>
          Window.view N (lastN N ((m.run m.init S).2.take (j + 1)))) := by
    have h := Window.run_trace m N hN S m.init ([] : List O) true
    simpa [lastN] using h
  refine ⟨hrun, fun a l => rfl, ?_⟩
  intro out hout
  rw [hrun] at hout
  simp only [List.mem_map, List.mem_range] at hout
  obtain ⟨j, hj, rfl⟩ := hout
  have hlen : (lastN N ((m.run m.init S).2.take (j + 1))).length
      = (min (j + 1) (m.run m.init S).2.length)
          - ((min (j + 1) (m.run m.init S).2.length) - N) := by
    simp [lastN, List.length_drop, List.length_take]
  rcases hw : lastN N ((m.run m.init S).2.take (j + 1)) with _ | ⟨a, l⟩
  · rw [hw] at hlen
    simp at hlen
    omega
  · rw [hw] at hlen
    simp only [Window.view, List.length_append, List.length_replicate]
    simp only [List.length_cons] at hlen ⊢
    omega

/-- Witness for the Window theorem: `Window(2)` over `Identity ℚ` with
inputs `[5, 7, 9]`. -/
theorem window_contract_witness :
    ((Window.machine (Identity.machine ℚ) 2).run
        (Window.machine (Identity.machine ℚ) 2).init [5, 7, 9]).2
      = (List.range ((Identity.machine ℚ).run (Identity.machine ℚ).init [5, 7, 9]).2.length).map
          (fun j => Window.view 2
            (lastN 2 (((Identity.machine ℚ).run (Identity.machine ℚ).init [5, 7, 9]).2.take (j + 1)))) :=
  (window_contract (Identity.machine ℚ) 2 [5, 7, 9] (by decide)).1

/-- **C8**: construction validation.  `Sma::new(0)`, `Rsi::new(0)`,
`Macd::new` with `short_period >= long_period`, and `BolingerBands::new`
with a negative multiplier each return the structured error carrying the
parameter name, the offending value and the violated bound or relation;
`Sma::new(1)` and all boundary-valid parameters return the freshly
constructed indicator.  The advance/peek operations are total, and the
values unwrapped inside them are always present: `current` is `Some` after
any advance for the four indicators named above, and on every state
reachable from construction the `Sma` ring backing the `pop_front` unwrap is
non-empty whenever the running sum is initialised (`reset` trivially never
fails, being a total state map). -/
theorem construction_validation :
    Sma.new 0 = .error (.invalidUintRange ⟨⟨"period", 0⟩, .lowerBounded 1⟩)
    ∧ Rsi.new 0 = .error (.invalidUintRange ⟨⟨"period", 0⟩, .lowerBounded 2⟩)
    ∧ (∀ short_period long_period signal_period : ℕ,
        long_period ≤ short_period →
          Macd.new short_period long_period signal_period
            = .error (.invalidRelation ⟨"<", ⟨"short_period", short_period⟩,
                ⟨"long_period", long_period⟩⟩))
    ∧ (∀ (period : ℕ) (multiplier : ℚ), 1 ≤ period → multiplier < 0 →
        BolingerBands.new period multiplier
          = .error (.invalidFloatRange ⟨⟨"multiplier", multiplier⟩, .lowerBounded 0⟩))
    ∧ Sma.new 1 = .ok ⟨[], none⟩
    ∧ (∀ period : ℕ, 1 ≤ period → Sma.new period = .ok ⟨[], none⟩)
    ∧ (∀ period : ℕ, 2 ≤ period → Rsi.new period = .ok ⟨⟨none⟩, ⟨none⟩, none⟩)
    ∧ (∀ short_period long_period signal_period : ℕ,
        1 ≤ short_period → short_period < long_period → 1 ≤ signal_period →
          Macd.new short_period long_period signal_period
            = .ok ⟨(⟨none⟩, ⟨none⟩), ⟨[], none⟩⟩)
    ∧ (∀ (period : ℕ) (multiplier : ℚ), 1 ≤ period → 0 ≤ multiplier →
        BolingerBands.new period multiplier = .ok ⟨⟨[], none⟩⟩)
    ∧ (∀ (period : ℕ) (s : Sma) (x : ℚ),
        (Sma.current period (Sma.next period s x).1).isSome)
    ∧ (∀ (period : ℕ) (s : Rsi) (x : ℚ), (Rsi.current (Rsi.next period s x).1).isSome)
    ∧ (∀ (short_period long_period signal_period : ℕ) (s : Macd) (x : ℚ),
        (Macd.current short_period long_period signal_period
          (Macd.next short_period long_period signal_period s x).1).isSome)
    ∧ (∀ (period : ℕ) (multiplier : ℚ) (sqrtQ : ℚ → ℚ) (s : BolingerBands) (x : ℚ),
        (BolingerBands.current period multiplier sqrtQ
          (BolingerBands.next period multiplier sqrtQ s x).1).isSome)
    ∧ (∀ (period : ℕ) (S : List ℚ), 1 ≤ period →
        ((Sma.machine period).run (Sma.machine period).init S).1.sum.isSome →
          ((Sma.machine period).run (Sma.machine period).init S).1.ring ≠ []) := by
  refine ⟨rfl, rfl, ?_, ?_, rfl, ?_, ?_, ?_, ?_, ?_, ?_, ?_, ?_, ?_⟩
  · intro short_period long_period signal_period h
    unfold Macd.new
    rw [if_pos (by omega)]
  · intro period multiplier hp hm
    unfold BolingerBands.new StandardDeviation.new
    rw [if_neg (by omega)]
    simp [Except.bind, hm]
  · intro period hp
    unfold Sma.new
    rw [if_neg (by omega)]
  · intro period hp
    unfold Rsi.new Rma.new
    rw [if_neg (by omega)]
    simp [Except.bind]
  · intro short_period long_period signal_period h1 h2 h3
    unfold Macd.new Ema.new Sma.new
    rw [if_neg (not_not_intro h2), if_neg (by omega), if_neg (by omega),
      if_neg (by omega)]
    simp [Except.bind]
  · intro period multiplier hp hm
    unfold BolingerBands.new StandardDeviation.new
    rw [if_neg (by omega)]
    simp [Except.bind, not_lt.mpr hm]
  · intro period s x
    cases h : s.sum <;> simp [Sma.next, h, Sma.current]
  · intro period s x
    obtain ⟨⟨uc⟩, ⟨dc⟩, pi⟩ := s
    cases pi <;> cases uc <;> cases dc <;>
      simp [Rsi.next, Rma.next, Rsi.current]
  · intro short_period long_period signal_period s x
    obtain ⟨⟨⟨e1⟩, ⟨e2⟩⟩, ⟨ring, sum⟩⟩ := s
    cases e1 <;> cases e2 <;> cases sum <;>
      simp [Macd.next, Macd.current, Diff.machine, Ema.machine, Ema.next,
        Sma.next, Sma.current]
  · intro period multiplier sqrtQ s x
    obtain ⟨⟨ring, ms⟩⟩ := s
    cases ms <;>
      simp [BolingerBands.next, BolingerBands.current, StandardDeviation.next,
        StandardDeviation.current]
  · intro period S hp
    refine Machine.run_preserve (Sma.machine period)
      (fun s => s.sum.isSome → s.ring ≠ []) ?_ S _ (by simp [Sma.machine])
    intro s x _hs
    cases h : s.sum <;> simp [Sma.machine, Sma.next, h]
    omega

/-- Witness for the construction-validation theorem: `Macd::new(3, 2, 1)`
(short ≥ long) fails with the structured relation error, and
`BolingerBands::new(5, -1)` fails with the multiplier range error. -/
theorem construction_validation_witness :
    Macd.new 3 2 1 = .error (.invalidRelation ⟨"<", ⟨"short_period", 3⟩,
        ⟨"long_period", 2⟩⟩)
    ∧ BolingerBands.new 5 (-1) = .error (.invalidFloatRange
        ⟨⟨"multiplier", -1⟩, .lowerBounded 0⟩) :=
  ⟨construction_validation.2.2.1 3 2 1 (by decide),
   construction_validation.2.2.2.1 5 (-1) (by decide) (by norm_num)⟩

/-- **C3**: reset equivalence.  Any machine whose `reset` restores the
construction-time state satisfies reset equivalence (run, reset, run again
gives the same outputs), every primitive indicator of the library restores
its construction-time state on `reset` from any state, and every combinator
preserves this property of its children — hence every indicator in the
library, primitive or any combinator tree over primitives, satisfies reset
equivalence. -/
theorem reset_equivalence :
    (∀ (I O St : Type) (m : Machine I O St), ResetRestoresInit m → ResetEquiv m)
    ∧ (∀ period : ℕ, ResetRestoresInit (Sma.machine period))
    ∧ (∀ period : ℕ, ResetRestoresInit (Ema.machine period))
    ∧ (∀ period : ℕ, ResetRestoresInit (Rma.machine period))
    ∧ ResetRestoresInit Vwap.machine
    ∧ (∀ period : ℕ, ResetRestoresInit (Vwma.machine period))
    ∧ (∀ period : ℕ, ResetRestoresInit (Min.machine period))
    ∧ (∀ period : ℕ, ResetRestoresInit (Max.machine period))
    ∧ (∀ period : ℕ, ResetRestoresInit (MinIndex.machine period))
    ∧ (∀ period : ℕ, ResetRestoresInit (MaxIndex.machine period))
    ∧ (∀ (period : ℕ) (sqrtQ : ℚ → ℚ),
        ResetRestoresInit (StandardDeviation.machine period sqrtQ))
    ∧ (∀ period : ℕ, ResetRestoresInit (Rsi.machine period))
    ∧ (∀ short_period long_period signal_period : ℕ,
        ResetRestoresInit (Macd.machine short_period long_period signal_period))
    ∧ (∀ (period : ℕ) (multiplier : ℚ) (sqrtQ : ℚ → ℚ),
        ResetRestoresInit (BolingerBands.machine period multiplier sqrtQ))
    ∧ (∀ period : ℕ, ResetRestoresInit (AroonIndicator.machine period))
    ∧ (∀ period : ℕ, ResetRestoresInit (AroonOscillator.machine period))
    ∧ (∀ n_period m_period x_period : ℕ,
        ResetRestoresInit (Stochastics.machine n_period m_period x_period))
    ∧ (∀ T : Type, ResetRestoresInit (Identity.machine T))
    ∧ (∀ (T : Type) (t : T), ResetRestoresInit (Constant.machine t))
    ∧ (∀ (I O R St : Type) (i : Machine I O St) (f : O → R),
        ResetRestoresInit i → ResetRestoresInit (Map.machine i f))
    ∧ (∀ (I M O SI SO : Type) (inner : Machine I M SI) (outer : Machine M O SO),
        ResetRestoresInit inner → ResetRestoresInit outer →
          ResetRestoresInit (Composition.machine inner outer))
    ∧ (∀ (T OL OR SL SR : Type) (lhs : Machine T OL SL) (rhs : Machine T OR SR),
        ResetRestoresInit lhs → ResetRestoresInit rhs →
          ResetRestoresInit (Together.machine lhs rhs))
    ∧ (∀ (IL IR O SL SR : Type) (_inst : Sub O)
        (lhs : Machine IL O SL) (rhs : Machine IR O SR),
        ResetRestoresInit lhs → ResetRestoresInit rhs →
          ResetRestoresInit (Diff.machine lhs rhs))
    ∧ (∀ (I O St : Type) (i : Machine I O St) (period : ℕ),
        ResetRestoresInit i → ResetRestoresInit (Mature.machine i period))
    ∧ (∀ (I O St : Type) (i : Machine I O St) (window_size : ℕ),
        ResetRestoresInit i → ResetRestoresInit (Window.machine i window_size)) := by
  refine ⟨fun _ _ _ m h => resetEquiv_of_resetRestoresInit m h,
    fun _ _ => rfl, fun _ _ => rfl, fun _ _ => rfl, fun _ => rfl, fun _ _ => rfl,
    fun _ _ => rfl, fun _ _ => rfl, fun _ _ => rfl, fun _ _ => rfl, fun _ _ _ => rfl,
    fun _ _ => rfl, fun _ _ _ _ => rfl, fun _ _ _ _ => rfl, fun _ _ => rfl,
    fun _ _ => rfl, fun _ _ _ _ => rfl, fun _ _ => rfl, fun _ _ _ => rfl,
    ?_, ?_, ?_, ?_, ?_, ?_⟩
  · intro _ _ _ _ i f h s
    exact h s
  · intro _ _ _ _ _ inner outer hi ho s
    show (inner.reset s.1, outer.reset s.2) = (inner.init, outer.init)
    rw [hi s.1, ho s.2]
  · intro _ _ _ _ _ lhs rhs hl hr s
    show (lhs.reset s.1, rhs.reset s.2) = (lhs.init, rhs.init)
    rw [hl s.1, hr s.2]
  · intro _ _ _ _ _ _ lhs rhs hl hr s
    show (lhs.reset s.1, rhs.reset s.2) = (lhs.init, rhs.init)
    rw [hl s.1, hr s.2]
  · intro _ _ _ i period h s
    show (i.reset s.1, period + 1) = (i.init, period + 1)
    rw [h s.1]
  · intro _ _ _ i window_size h s
    show (i.reset s.1, ([] : List _), true) = (i.init, [], true)
    rw [h s.1]

/-- Witness for the reset-equivalence theorem: `Sma(2)` over `[1, 2, 3]`. -/
theorem reset_equivalence_witness :
    ((Sma.machine 2).run
        ((Sma.machine 2).reset ((Sma.machine 2).run (Sma.machine 2).init [1, 2, 3]).1)
        [1, 2, 3]).2
      = ((Sma.machine 2).run (Sma.machine 2).init [1, 2, 3]).2 :=
  reset_equivalence.1 ℚ ℚ Sma (Sma.machine 2) (reset_equivalence.2.1 2) [1, 2, 3]

end Indicator
